import Mathlib

/-!
Verification development for the `ImprovedBreakoutStrategy` trading strategy
(`user_data/strategies/breakout_strategy.py`).

The strategy is a pure batch transform over an OHLCV price table:
`populate_indicators` appends technical-indicator columns (EMA, RSI, MACD,
ADX, ATR, rolling volume average, rolling extrema, momentum offset),
`populate_entry_trend` derives a ternary `enter` column and
`populate_exit_trend` a ternary `exit` column from per-bar boolean
conditions over those columns.

Shallow embedding conventions:
* a pandas `DataFrame` is a `List` of rows; a column is a `List (Option ℚ)`
  aligned by index, `none` standing for `NaN`;
* real (double) arithmetic is modelled by exact rational arithmetic `ℚ`;
* a pandas comparison involving `NaN` evaluates to `False`; NaN propagates
  through arithmetic — captured by the `n*` lifted operations below;
* the TA-Lib indicator functions called by the source (`ta.EMA`, `ta.RSI`,
  `ta.MACD`, `ta.ADX`, `ta.ATR`) are embedded following TA-Lib's reference
  algorithms (SMA-seeded EMA; Wilder smoothing for RSI/ATR/ADX; MACD output
  aligned at index `macd_slow + macd_signal - 2`), producing `NaN` (`none`)
  for the warm-up prefix exactly as TA-Lib leaves the leading outputs unset;
* pandas `df.loc[mask, col] = v` is a masked assignment over the column,
  embedded by `maskAssign`.
-/

namespace Breakout

/-- Arithmetic on possibly-undefined (`NaN`) values: addition propagates
undefinedness, as in pandas. -/
def nadd : Option ℚ → Option ℚ → Option ℚ
  | some a, some b => some (a + b)
  | _, _ => none

/-- `NaN`-propagating subtraction. -/
def nsub : Option ℚ → Option ℚ → Option ℚ
  | some a, some b => some (a - b)
  | _, _ => none

/-- `NaN`-propagating multiplication. -/
def nmul : Option ℚ → Option ℚ → Option ℚ
  | some a, some b => some (a * b)
  | _, _ => none

/-- Comparison `a < b` on possibly-undefined values: any comparison with
`NaN` is `false`, as in pandas. -/
def nlt : Option ℚ → Option ℚ → Bool
  | some a, some b => decide (a < b)
  | _, _ => false

/-- Comparison `a ≤ b`; `false` when either side is undefined. -/
def nle : Option ℚ → Option ℚ → Bool
  | some a, some b => decide (a ≤ b)
  | _, _ => false

/-- Comparison `a > b`; `false` when either side is undefined. -/
def ngt (a b : Option ℚ) : Bool := nlt b a

/-- Comparison `a ≥ b`; `false` when either side is undefined. -/
def nge (a b : Option ℚ) : Bool := nle b a

/-- One bar of the input price series: the `open, high, low, close, volume`
columns of the freqtrade dataframe (`opn` stands for the `open` column,
which is a reserved word in Lean). -/
structure Bar where
  opn    : ℚ
  high   : ℚ
  low    : ℚ
  close  : ℚ
  volume : ℚ
  deriving Repr, DecidableEq

/-- Default bar used only for out-of-range `getD` access. -/
def defaultBar : Bar := ⟨0, 0, 0, 0, 0⟩

/-- The `close` column of the price table. -/
def closes (bars : List Bar) : List ℚ := bars.map Bar.close

/-- The `high` column of the price table. -/
def highs (bars : List Bar) : List ℚ := bars.map Bar.high

/-- The `low` column of the price table. -/
def lows (bars : List Bar) : List ℚ := bars.map Bar.low

/-- The `volume` column of the price table. -/
def volumes (bars : List Bar) : List ℚ := bars.map Bar.volume

/-- Arithmetic mean of a list of rationals (`0` for the empty list). -/
def mean (xs : List ℚ) : ℚ := xs.sum / (xs.length : ℚ)

/-- Maximum of a list of rationals (`0` for the empty list); used for the
pandas `rolling(20).max()` window aggregate. -/
def maxD : List ℚ → ℚ
  | [] => 0
  | x :: t => t.foldl max x

/-- Minimum of a list of rationals (`0` for the empty list); used for the
pandas `rolling(20).min()` window aggregate. -/
def minD : List ℚ → ℚ
  | [] => 0
  | x :: t => t.foldl min x

/-- pandas `Series.rolling(w).agg(f)`: for each index `i`, apply `f` to the
window of the last `w` values ending at `i`; `NaN` while fewer than `w`
values are available (pandas' default `min_periods = window`). -/
def rollApply (w : Nat) (f : List ℚ → ℚ) (xs : List ℚ) : List (Option ℚ) :=
  (List.range xs.length).map fun i =>
    if i + 1 < w then none else some (f ((xs.drop (i + 1 - w)).take w))

/-- The running EMA recurrence of TA-Lib (`prevMA += k * (val - prevMA)`),
emitting one value per remaining input. -/
def emaScan (k : ℚ) : ℚ → List ℚ → List ℚ
  | _, [] => []
  | prev, c :: cs =>
    let e := (c - prev) * k + prev
    e :: emaScan k e cs

/-- The defined values of a TA-Lib EMA of period `p`: the first value (at
input index `p - 1`) is the SMA of the first `p` inputs, after which the
recurrence with `k = 2 / (p + 1)` runs; empty if fewer than `p` inputs. -/
def emaVals (p : Nat) (xs : List ℚ) : List ℚ :=
  if xs.length < p then []
  else
    let seed := mean (xs.take p)
    seed :: emaScan (2 / ((p : ℚ) + 1)) seed (xs.drop p)

/-- Column produced by `ta.EMA(dataframe, timeperiod = p)`: `NaN` for the
first `p - 1` bars, then the EMA values. -/
def emaCol (p : Nat) (xs : List ℚ) : List (Option ℚ) :=
  if xs.length < p then xs.map fun _ => none
  else List.replicate (p - 1) none ++ (emaVals p xs).map some

/-- Successive differences of the close series (TA-Lib RSI input deltas). -/
def diffs : List ℚ → List ℚ
  | x :: y :: t => (y - x) :: diffs (y :: t)
  | _ => []

/-- Gain contributed by one close-to-close change (TA-Lib RSI). -/
def gainOf (d : ℚ) : ℚ := if 0 < d then d else 0

/-- Loss contributed by one close-to-close change (TA-Lib RSI). -/
def lossOf (d : ℚ) : ℚ := if d < 0 then -d else 0

/-- The RSI output value from smoothed average gain and loss: TA-Lib emits
`100 * gain / (gain + loss)` guarded by a zero-divisor check (`0` when
`gain + loss` is zero). -/
def rsiVal (g l : ℚ) : ℚ := if g + l = 0 then 0 else 100 * (g / (g + l))

/-- Wilder-smoothed RSI steps: for each further change, the average gain and
loss are updated by `avg := (avg * (p - 1) + cur) / p` and one RSI value is
emitted. -/
def rsiScan (p : ℚ) : ℚ → ℚ → List ℚ → List ℚ
  | _, _, [] => []
  | g, l, d :: ds =>
    let g' := (g * (p - 1) + gainOf d) / p
    let l' := (l * (p - 1) + lossOf d) / p
    rsiVal g' l' :: rsiScan p g' l' ds

/-- Column produced by `ta.RSI(dataframe, timeperiod = p)`: `NaN` for the
first `p` bars; the first value (at index `p`) comes from the plain averages
of the first `p` changes, later values from Wilder smoothing. -/
def rsiCol (p : Nat) (xs : List ℚ) : List (Option ℚ) :=
  if xs.length < p + 1 then xs.map fun _ => none
  else
    let ds := diffs xs
    let g0 := ((ds.take p).map gainOf).sum / (p : ℚ)
    let l0 := ((ds.take p).map lossOf).sum / (p : ℚ)
    List.replicate p none ++ (rsiVal g0 l0 :: rsiScan (p : ℚ) g0 l0 (ds.drop p)).map some

/-- True range of a bar given the previous close (TA-Lib `TRUE_RANGE`):
the largest of `high - low`, `|high - prevClose|`, `|low - prevClose|`. -/
def trueRange (h l pc : ℚ) : ℚ := max (h - l) (max |h - pc| |l - pc|)

/-- The list of true ranges of a price series, one per bar from index 1. -/
def trList : List Bar → List ℚ
  | b0 :: b1 :: t => trueRange b1.high b1.low b0.close :: trList (b1 :: t)
  | _ => []

/-- Wilder smoothing scan (`prev := (prev * (p - 1) + x) / p`), emitting one
value per input; used by TA-Lib ATR. -/
def wilderScan (p : ℚ) : ℚ → List ℚ → List ℚ
  | _, [] => []
  | prev, x :: t =>
    let v := (prev * (p - 1) + x) / p
    v :: wilderScan p v t

/-- Column produced by `ta.ATR(dataframe, timeperiod = p)`: `NaN` for the
first `p` bars; the first value (at index `p`) is the SMA of the first `p`
true ranges, later values come from Wilder smoothing. -/
def atrCol (p : Nat) (bars : List Bar) : List (Option ℚ) :=
  if bars.length < p + 1 then bars.map fun _ => none
  else
    let trs := trList bars
    let seed := (trs.take p).sum / (p : ℚ)
    List.replicate p none ++ (seed :: wilderScan (p : ℚ) seed (trs.drop p)).map some

/-- Running state of TA-Lib's ADX loop: previous bar's high/low/close and
the smoothed `+DM`, `-DM` and true-range accumulators. -/
structure DmState where
  ph  : ℚ
  pl  : ℚ
  pc  : ℚ
  pdm : ℚ
  mdm : ℚ
  tr  : ℚ
  deriving Repr, DecidableEq

/-- One bar of TA-Lib ADX's initial accumulation loop: classify the
directional move of the bar (`-DM` wins when `diffM > 0 ∧ diffP < diffM`,
else `+DM` when `diffP > 0 ∧ diffM < diffP`) and add it and the bar's true
range to the running sums. -/
def dmAccumStep (s : DmState) (b : Bar) : DmState :=
  let diffP := b.high - s.ph
  let diffM := s.pl - b.low
  let mdm' := if 0 < diffM ∧ diffP < diffM then s.mdm + diffM else s.mdm
  let pdm' :=
    if 0 < diffM ∧ diffP < diffM then s.pdm
    else if 0 < diffP ∧ diffM < diffP then s.pdm + diffP
    else s.pdm
  let tr' := s.tr + trueRange b.high b.low s.pc
  ⟨b.high, b.low, b.close, pdm', mdm', tr'⟩

/-- One bar of TA-Lib ADX's smoothing loop: the accumulators decay by
`x := x - x / p` and the bar's directional move and true range are added. -/
def dmSmoothStep (p : ℚ) (s : DmState) (b : Bar) : DmState :=
  let diffP := b.high - s.ph
  let diffM := s.pl - b.low
  let mdm' :=
    if 0 < diffM ∧ diffP < diffM then s.mdm - s.mdm / p + diffM
    else s.mdm - s.mdm / p
  let pdm' :=
    if 0 < diffM ∧ diffP < diffM then s.pdm - s.pdm / p
    else if 0 < diffP ∧ diffM < diffP then s.pdm - s.pdm / p + diffP
    else s.pdm - s.pdm / p
  let tr' := s.tr - s.tr / p + trueRange b.high b.low s.pc
  ⟨b.high, b.low, b.close, pdm', mdm', tr'⟩

/-- The DX value of a state: `100 * |(-DI) - (+DI)| / ((-DI) + (+DI))` with
`±DI = 100 * (±DM / TR)`, and `0` whenever TA-Lib's zero-divisor guards on
`TR` or on `(-DI) + (+DI)` fire. -/
def dxOf (s : DmState) : ℚ :=
  if s.tr = 0 then 0
  else
    let pdi := 100 * (s.pdm / s.tr)
    let mdi := 100 * (s.mdm / s.tr)
    if pdi + mdi = 0 then 0 else 100 * (|mdi - pdi| / (pdi + mdi))

/-- TA-Lib ADX's second initial loop: smooth the accumulators over `p` bars
while summing the DX values (a bar adds nothing when a zero guard fires,
matching `dxOf` returning `0` there). -/
def dxAccum (p : ℚ) : DmState → ℚ → List Bar → DmState × ℚ
  | s, sum, [] => (s, sum)
  | s, sum, b :: bs =>
    let s' := dmSmoothStep p s b
    dxAccum p s' (sum + dxOf s') bs

/-- TA-Lib ADX's running update: when neither zero guard fires the ADX is
Wilder-averaged with the bar's DX, otherwise it is left unchanged. -/
def adxUpd (p : ℚ) (adx : ℚ) (s : DmState) : ℚ :=
  if s.tr = 0 then adx
  else if 100 * (s.pdm / s.tr) + 100 * (s.mdm / s.tr) = 0 then adx
  else (adx * (p - 1) + dxOf s) / p

/-- TA-Lib ADX's output loop: one smoothing step and one `adxUpd` per bar,
emitting the running ADX. -/
def adxScan (p : ℚ) : ℚ → DmState → List Bar → List ℚ
  | _, _, [] => []
  | adx, s, b :: bs =>
    let s' := dmSmoothStep p s b
    let a' := adxUpd p adx s'
    a' :: adxScan p a' s' bs

/-- Column produced by `ta.ADX(dataframe, timeperiod = p)`: `NaN` for the
first `2p - 1` bars; the first value is the mean of the first `p` DX values
(after `p - 1` bars of raw accumulation), after which `adxScan` runs. -/
def adxCol (p : Nat) (bars : List Bar) : List (Option ℚ) :=
  if bars.length < 2 * p then bars.map fun _ => none
  else
    match bars with
    | [] => []
    | b0 :: rest =>
      let s0 : DmState := ⟨b0.high, b0.low, b0.close, 0, 0, 0⟩
      let sA := (rest.take (p - 1)).foldl dmAccumStep s0
      let sb := dxAccum (p : ℚ) sA 0 ((rest.drop (p - 1)).take p)
      let adx0 := sb.2 / (p : ℚ)
      List.replicate (2 * p - 1) none ++
        (adx0 :: adxScan (p : ℚ) adx0 sb.1 ((rest.drop (p - 1)).drop p)).map some

/-- The defined values of the MACD line (`EMA(fast) - EMA(slow)` of the
closes), starting at input index `macd_slow - 1`. -/
def macdRawVals (fast slow : Nat) (xs : List ℚ) : List ℚ :=
  List.zipWith (· - ·) ((emaVals fast xs).drop (slow - fast)) (emaVals slow xs)

/-- Column `macd` of `ta.MACD`: TA-Lib trims all three outputs to start at
index `slow + signal - 2`, so the macd line's first `signal - 1` defined
values are dropped. -/
def macdCol (fast slow signal : Nat) (xs : List ℚ) : List (Option ℚ) :=
  if xs.length < slow + signal - 1 then xs.map fun _ => none
  else
    List.replicate (slow + signal - 2) none ++
      ((macdRawVals fast slow xs).drop (signal - 1)).map some

/-- Column `macdsignal` of `ta.MACD`: the EMA of period `signal` of the macd
line, aligned at index `slow + signal - 2`. -/
def macdSignalCol (fast slow signal : Nat) (xs : List ℚ) : List (Option ℚ) :=
  if xs.length < slow + signal - 1 then xs.map fun _ => none
  else
    List.replicate (slow + signal - 2) none ++
      (emaVals signal (macdRawVals fast slow xs)).map some

/-- Column `macdhist` of `ta.MACD`: the elementwise difference of the macd
line and the signal line, over the same aligned range. -/
def macdHistCol (fast slow signal : Nat) (xs : List ℚ) : List (Option ℚ) :=
  if xs.length < slow + signal - 1 then xs.map fun _ => none
  else
    List.replicate (slow + signal - 2) none ++
      (List.zipWith (· - ·) ((macdRawVals fast slow xs).drop (signal - 1))
        (emaVals signal (macdRawVals fast slow xs))).map some

/-! Tunable parameters of `ImprovedBreakoutStrategy`, verbatim from the
class body. -/

/-- Parameter `ema_fast = 20` (period of the fast EMA). -/
def ema_fast : Nat := 20

/-- Parameter `ema_slow = 50` (period of the slow EMA). -/
def ema_slow : Nat := 50

/-- Parameter `rsi_period = 14`. -/
def rsi_period : Nat := 14

/-- Parameter `rsi_oversold = 30`. -/
def rsi_oversold : ℚ := 30

/-- Parameter `rsi_overbought = 70`. -/
def rsi_overbought : ℚ := 70

/-- Parameter `adx_period = 14`. -/
def adx_period : Nat := 14

/-- Parameter `adx_threshold = 25` (ADX above 25 considered trending). -/
def adx_threshold : ℚ := 25

/-- Parameter `macd_fast = 12`. -/
def macd_fast : Nat := 12

/-- Parameter `macd_slow = 26`. -/
def macd_slow : Nat := 26

/-- Parameter `macd_signal = 9`. -/
def macd_signal : Nat := 9

/-- Parameter `atr_period = 14`. -/
def atr_period : Nat := 14

/-- Parameter `min_volume_multiplier = 0.8` (require `volume >= 0.8 * vol_ma20`). -/
def min_volume_multiplier : ℚ := 8 / 10

/-- Parameter `startup_candle_count = 200` (minimum candles before using indicators). -/
def startup_candle_count : Nat := 200

/-- Parameter `breakout_multiplier = 0.7`, the dynamic breakout multiplier local to
`populate_entry_trend`. -/
def breakout_multiplier : ℚ := 7 / 10

/-- One row of the dataframe after `populate_indicators`: the original
OHLCV columns plus one field per appended indicator column.  Every field is
possibly-`NaN`, as any pandas column is. -/
structure IndRow where
  opn                  : Option ℚ
  high                 : Option ℚ
  low                  : Option ℚ
  close                : Option ℚ
  volume               : Option ℚ
  ema_20               : Option ℚ
  ema_50               : Option ℚ
  rsi                  : Option ℚ
  macd                 : Option ℚ
  macd_signal          : Option ℚ
  macd_hist            : Option ℚ
  adx                  : Option ℚ
  atr                  : Option ℚ
  vol_ma20             : Option ℚ
  high_recent          : Option ℚ
  low_recent           : Option ℚ
  price_above_ema_slow : Option ℚ
  deriving Repr, DecidableEq

/-- Row with every column `NaN`; used only for out-of-range `getD` access. -/
def emptyRow : IndRow :=
  ⟨none, none, none, none, none, none, none, none, none, none, none, none,
   none, none, none, none, none⟩

/-- Row `i` of the dataframe produced by `populate_indicators`: the
original OHLCV values of bar `i` together with entry `i` of each appended
indicator column. -/
def mkIndRow (bars : List Bar) (i : Nat) : IndRow :=
  let cs := closes bars
  let b := bars.getD i defaultBar
  let e50 := (emaCol ema_slow cs).getD i none
  { opn := some b.opn
    high := some b.high
    low := some b.low
    close := some b.close
    volume := some b.volume
    ema_20 := (emaCol ema_fast cs).getD i none
    ema_50 := e50
    rsi := (rsiCol rsi_period cs).getD i none
    macd := (macdCol macd_fast macd_slow macd_signal cs).getD i none
    macd_signal := (macdSignalCol macd_fast macd_slow macd_signal cs).getD i none
    macd_hist := (macdHistCol macd_fast macd_slow macd_signal cs).getD i none
    adx := (adxCol adx_period bars).getD i none
    atr := (atrCol atr_period bars).getD i none
    vol_ma20 := (rollApply 20 mean (volumes bars)).getD i none
    high_recent := (rollApply 20 maxD (highs bars)).getD i none
    low_recent := (rollApply 20 minD (lows bars)).getD i none
    price_above_ema_slow := nsub (some b.close) e50 }

/-- Method `populate_indicators`: append the EMA, RSI, MACD, ADX, ATR, rolling
volume-average, rolling extrema and momentum-offset columns to the price
table (lines 50-81 of the source).  A dataframe is its list of rows, so the
columns are assembled by index. -/
def populate_indicators (bars : List Bar) : List IndRow :=
  (List.range bars.length).map (mkIndRow bars)

/-! The per-bar boolean condition groups of `populate_entry_trend`
(lines 117-156) and `populate_exit_trend` (lines 179-188), verbatim. -/

/-- Condition `long_breakout`: price broke above recent high plus `ATR * 0.7`, MACD
bullish, price above slow EMA, volume not too low, trending confirmed. -/
def long_breakout (r : IndRow) : Bool :=
  ngt r.close (nadd r.high_recent (nmul r.atr (some breakout_multiplier))) &&
  ngt r.macd r.macd_signal &&
  ngt r.close r.ema_50 &&
  nge r.volume (nmul r.vol_ma20 (some min_volume_multiplier)) &&
  nge r.adx (some adx_threshold)

/-- Condition `short_breakout`: the symmetric short conditions. -/
def short_breakout (r : IndRow) : Bool :=
  nlt r.close (nsub r.low_recent (nmul r.atr (some breakout_multiplier))) &&
  nlt r.macd r.macd_signal &&
  nlt r.close r.ema_50 &&
  nge r.volume (nmul r.vol_ma20 (some min_volume_multiplier)) &&
  nge r.adx (some adx_threshold)

/-- Condition `range_long`: non-trending, RSI oversold, price above fast EMA. -/
def range_long (r : IndRow) : Bool :=
  nlt r.adx (some adx_threshold) &&
  nle r.rsi (some rsi_oversold) &&
  ngt r.close r.ema_20

/-- Condition `range_short`: non-trending, RSI overbought, price below fast EMA. -/
def range_short (r : IndRow) : Bool :=
  nlt r.adx (some adx_threshold) &&
  nge r.rsi (some rsi_overbought) &&
  nlt r.close r.ema_20

/-- Condition `consolidation_long`: non-trending, RSI at most `rsi_oversold + 5`,
MACD bullish. -/
def consolidation_long (r : IndRow) : Bool :=
  nlt r.adx (some adx_threshold) &&
  nle r.rsi (some (rsi_oversold + 5)) &&
  ngt r.macd r.macd_signal

/-- Condition `consolidation_short`: non-trending, RSI at least `rsi_overbought - 5`,
MACD bearish. -/
def consolidation_short (r : IndRow) : Bool :=
  nlt r.adx (some adx_threshold) &&
  nge r.rsi (some (rsi_overbought - 5)) &&
  nlt r.macd r.macd_signal

/-- The mask of the first `.loc` assignment of `populate_entry_trend`:
`(long_breakout) | (range_long) | (consolidation_long)`. -/
def longEntryMask (r : IndRow) : Bool :=
  long_breakout r || range_long r || consolidation_long r

/-- The mask of the second `.loc` assignment of `populate_entry_trend`:
`(short_breakout) | (range_short) | (consolidation_short)`. -/
def shortEntryMask (r : IndRow) : Bool :=
  short_breakout r || range_short r || consolidation_short r

/-- Condition `exit_long` of `populate_exit_trend`: price fell back below the slow
EMA, or RSI became overbought. -/
def exit_long (r : IndRow) : Bool :=
  nlt r.close r.ema_50 || nge r.rsi (some rsi_overbought)

/-- Condition `exit_short` of `populate_exit_trend`: price rose above the slow EMA,
or RSI became oversold. -/
def exit_short (r : IndRow) : Bool :=
  ngt r.close r.ema_50 || nle r.rsi (some rsi_oversold)

/-- pandas `dataframe.loc[mask, col] = v`: each entry of the column whose
row satisfies the mask is overwritten with `v`. -/
def maskAssign (m : IndRow → Bool) (v : Int) : List IndRow → List Int → List Int
  | r :: rs, c :: cs => (if m r then v else c) :: maskAssign m v rs cs
  | _, _ => []

/-- Method `populate_entry_trend` (lines 101-167), as the `enter` column it writes
(the indicator columns of the dataframe are returned unchanged): the column
is first zeroed; if the dataframe has fewer than `startup_candle_count`
rows it is returned as is; otherwise the long mask assigns `1` and then the
short mask assigns `-1`, in that order. -/
def populate_entry_trend (df : List IndRow) : List Int :=
  let enter0 := df.map fun _ => (0 : Int)
  if df.length < startup_candle_count then enter0
  else maskAssign shortEntryMask (-1) df (maskAssign longEntryMask 1 df enter0)

/-- Method `populate_exit_trend` (lines 170-193), as the `exit` column it writes:
the column is zeroed, then the `exit_long` mask assigns `1` and the
`exit_short` mask assigns `-1`, in that order, with no length gate. -/
def populate_exit_trend (df : List IndRow) : List Int :=
  maskAssign exit_short (-1) df (maskAssign exit_long 1 df (df.map fun _ => (0 : Int)))

/-- Derived per-row value of the `enter` column once the length gate has
passed: the long mask writes `1` first, then the short mask overwrites with
`-1`, so a row where the short mask holds reads `-1`, else a long row reads
`1`, else the initial `0` survives.  This is proved below
(`populate_entry_trend_getElem?_of_ge`), not assumed. -/
def entryRule (r : IndRow) : Int :=
  if shortEntryMask r then -1 else if longEntryMask r then 1 else 0

/-- Derived per-row value of the `exit` column (same overwrite order, no
length gate); proved below (`populate_exit_trend_getElem?`). -/
def exitRule (r : IndRow) : Int :=
  if exit_short r then -1 else if exit_long r then 1 else 0

theorem maskAssign_getElem? (m : IndRow → Bool) (v : Int) :
    ∀ (df : List IndRow) (col : List Int) (i : Nat),
      (maskAssign m v df col)[i]? =
        match df[i]?, col[i]? with
        | some r, some c => some (if m r then v else c)
        | _, _ => none := by
  intro df
  induction df with
  | nil => intro col i; cases col <;> simp [maskAssign]
  | cons r rs ih =>
    intro col i
    cases col with
    | nil => simp [maskAssign]
    | cons c cs => cases i <;> simp [maskAssign, ih]

theorem populate_exit_trend_getElem? (df : List IndRow) (i : Nat) :
    (populate_exit_trend df)[i]? = df[i]?.map exitRule := by
  unfold populate_exit_trend
  rw [maskAssign_getElem?, maskAssign_getElem?]
  cases h : df[i]? with
  | none => simp [h]
  | some r =>
    have hi : i < df.length := (List.getElem?_eq_some_iff.mp h).1
    simp [h, exitRule, List.getElem?_replicate_of_lt hi]

theorem populate_exit_trend_getD (df : List IndRow) (i : Nat) :
    (populate_exit_trend df).getD i 0 = exitRule (df.getD i emptyRow) := by
  rw [List.getD_eq_getElem?_getD, List.getD_eq_getElem?_getD,
    populate_exit_trend_getElem?]
  cases h : df[i]? <;> simp [exitRule, emptyRow, exit_short, exit_long, nlt, nle, ngt, nge]

theorem populate_entry_trend_getElem?_of_lt (df : List IndRow)
    (h : df.length < startup_candle_count) (i : Nat) :
    (populate_entry_trend df)[i]? = df[i]?.map fun _ => (0 : Int) := by
  unfold populate_entry_trend
  simp only [h, if_pos, List.getElem?_map]

theorem populate_entry_trend_getElem?_of_ge (df : List IndRow)
    (h : ¬ df.length < startup_candle_count) (i : Nat) :
    (populate_entry_trend df)[i]? = df[i]?.map entryRule := by
  unfold populate_entry_trend
  simp only [h, if_neg, not_false_iff]
  rw [maskAssign_getElem?, maskAssign_getElem?]
  cases hh : df[i]? with
  | none => simp [hh]
  | some r =>
    have hi : i < df.length := (List.getElem?_eq_some_iff.mp hh).1
    simp [hh, entryRule, List.getElem?_replicate_of_lt hi]

theorem entryRule_emptyRow : entryRule emptyRow = 0 := rfl

theorem populate_entry_trend_getD_of_lt (df : List IndRow)
    (h : df.length < startup_candle_count) (i : Nat) :
    (populate_entry_trend df).getD i 0 = 0 := by
  rw [List.getD_eq_getElem?_getD, populate_entry_trend_getElem?_of_lt df h]
  cases df[i]? <;> simp

theorem populate_entry_trend_getD_of_ge (df : List IndRow)
    (h : ¬ df.length < startup_candle_count) (i : Nat) :
    (populate_entry_trend df).getD i 0 = entryRule (df.getD i emptyRow) := by
  rw [List.getD_eq_getElem?_getD, List.getD_eq_getElem?_getD,
    populate_entry_trend_getElem?_of_ge df h]
  cases df[i]? <;> simp [entryRule_emptyRow]

theorem ngt_nlt_false {a b : Option ℚ} (h1 : ngt a b = true) (h2 : nlt a b = true) :
    False := by
  cases a <;> cases b <;> simp [ngt, nlt] at h1 h2
  exact absurd h2 (not_lt_of_lt h1)

theorem nge_nlt_false {a b : Option ℚ} (h1 : nge a b = true) (h2 : nlt a b = true) :
    False := by
  cases a <;> cases b <;> simp [nge, nle, nlt] at h1 h2
  exact absurd h2 (not_lt_of_le h1)

theorem nle_nge_false {a : Option ℚ} {c d : ℚ} (hcd : c < d)
    (h1 : nle a (some c) = true) (h2 : nge a (some d) = true) : False := by
  cases a <;> simp [nge, nle] at h1 h2
  exact absurd (lt_of_le_of_lt h1 hcd) (not_lt_of_le h2)

/-- Core disjointness: no indicator row can satisfy both the long-entry and
the short-entry disjunction, because each long/short pair of condition
groups contains a directly contradictory pair of comparisons. -/
theorem longEntryMask_shortEntryMask_disjoint (r : IndRow)
    (hl : longEntryMask r = true) (hs : shortEntryMask r = true) : False := by
  simp only [longEntryMask, shortEntryMask, Bool.or_eq_true, long_breakout,
    range_long, consolidation_long, short_breakout, range_short,
    consolidation_short, Bool.and_eq_true] at hl hs
  rcases hl with (hl | hl) | hl <;> rcases hs with (hs | hs) | hs
  · exact ngt_nlt_false hl.1.1.2 hs.1.1.2
  · exact nge_nlt_false hl.2 hs.1.1
  · exact nge_nlt_false hl.2 hs.1.1
  · exact nge_nlt_false hs.2 hl.1.1
  · exact nle_nge_false (by norm_num [rsi_oversold, rsi_overbought]) hl.1.2 hs.1.2
  · exact nle_nge_false (by norm_num [rsi_oversold, rsi_overbought]) hl.1.2 hs.1.2
  · exact nge_nlt_false hs.2 hl.1.1
  · exact nle_nge_false (by norm_num [rsi_oversold, rsi_overbought]) hl.1.2 hs.1.2
  · exact ngt_nlt_false hl.2 hs.2

/-- Concrete indicator row satisfying `long_breakout` and none of the
short-entry condition groups; used by witnesses. -/
def rowLong : IndRow :=
  ⟨some 100, some 100, some 99, some 100, some 10, some 99, some 50, some 50,
   some 1, some 0, some 1, some 30, some 1, some 10, some 50, some 0, some 50⟩

/-- Concrete indicator row satisfying `range_short` (and
`consolidation_short`) and none of the long-entry condition groups; used by
witnesses. -/
def rowShort : IndRow :=
  ⟨some 100, some 100, some 99, some 100, some 10, some 200, some 150, some 80,
   some (-1), some 0, some (-1), some 10, some 1, some 10, some 300, some 0,
   some (-50)⟩

/-- Concrete indicator row where both `exit_long` (`close < ema_50`) and
`exit_short` (`rsi <= 30`) hold; used by witnesses. -/
def rowExitBoth : IndRow :=
  ⟨none, none, none, some 10, none, none, some 50, some 20, none, none, none,
   none, none, none, none, none, none⟩

/-- C1: for every input table with fewer bars than the warm-up count
(`startup_candle_count = 200`), `populate_entry_trend` returns an entry
column that is `0` at every bar, regardless of the indicator values: the
column is zeroed and the function returns before any condition is applied. -/
theorem C1_short_series_entry_zero (df : List IndRow)
    (h : df.length < startup_candle_count) (i : Nat) :
    (populate_entry_trend df).getD i 0 = 0 :=
  populate_entry_trend_getD_of_lt df h i

theorem C1_short_series_entry_zero_witness :
    (List.replicate 5 rowLong).length < startup_candle_count ∧
    (populate_entry_trend (List.replicate 5 rowLong)).getD 2 0 = 0 :=
  ⟨by decide, C1_short_series_entry_zero (List.replicate 5 rowLong) (by decide) 2⟩

/-- C4: for every bar, `exit = -1` exactly when the `exit_short` group
(`close > ema_50` or `rsi <= 30`) holds; when the short group does not hold,
`exit = +1` exactly when the `exit_long` group (`close < ema_50` or
`rsi >= 70`) holds; and when both groups hold at the same bar, `exit = -1`,
because the short-exit assignment is made last and wins. -/
theorem C4_exit_tiebreak (df : List IndRow) (i : Nat) :
    ((populate_exit_trend df).getD i 0 = -1 ↔ exit_short (df.getD i emptyRow) = true) ∧
    (exit_short (df.getD i emptyRow) = false →
      ((populate_exit_trend df).getD i 0 = 1 ↔ exit_long (df.getD i emptyRow) = true)) ∧
    (exit_long (df.getD i emptyRow) = true → exit_short (df.getD i emptyRow) = true →
      (populate_exit_trend df).getD i 0 = -1) := by
  rw [populate_exit_trend_getD]
  unfold exitRule
  rcases hs : exit_short (df.getD i emptyRow) <;>
    rcases hl : exit_long (df.getD i emptyRow) <;> simp

theorem C4_exit_tiebreak_witness :
    (populate_exit_trend [rowExitBoth]).getD 0 0 = -1 :=
  (C4_exit_tiebreak [rowExitBoth] 0).2.2 (by decide) (by decide)

/-- C5: on a table of at least warm-up length, a bar satisfying
`long_breakout` (close above recent high plus `0.7 * ATR`, MACD above
signal, close above slow EMA, volume at least `0.8` of its 20-bar average,
ADX at least 25) and no short-entry group gets `enter = 1`; a bar
satisfying a short-entry group and no long-entry group gets `enter = -1`;
a bar satisfying no group gets `enter = 0`. -/
theorem C5_entry_classification (df : List IndRow) (i : Nat)
    (h : startup_candle_count ≤ df.length) :
    (long_breakout (df.getD i emptyRow) = true →
      shortEntryMask (df.getD i emptyRow) = false →
      (populate_entry_trend df).getD i 0 = 1) ∧
    (shortEntryMask (df.getD i emptyRow) = true →
      longEntryMask (df.getD i emptyRow) = false →
      (populate_entry_trend df).getD i 0 = -1) ∧
    (longEntryMask (df.getD i emptyRow) = false →
      shortEntryMask (df.getD i emptyRow) = false →
      (populate_entry_trend df).getD i 0 = 0) := by
  have hrw := populate_entry_trend_getD_of_ge df (by omega) i
  refine ⟨fun hlb hs => ?_, fun hs _ => ?_, fun hl hs => ?_⟩
  · have hlm : longEntryMask (df.getD i emptyRow) = true := by
      simp only [longEntryMask, hlb, Bool.true_or]
    rw [hrw]; unfold entryRule; rw [hs, hlm]; decide
  · rw [hrw]; unfold entryRule; rw [hs]; simp
  · rw [hrw]; unfold entryRule; rw [hs, hl]; decide

theorem C5_entry_classification_witness :
    (populate_entry_trend (List.replicate 200 rowLong)).getD 0 0 = 1 :=
  (C5_entry_classification (List.replicate 200 rowLong) 0
    (by rw [List.length_replicate]; decide)).1 (by with_unfolding_all decide) (by with_unfolding_all decide)

/-- C6: whenever the short-entry mask holds at a bar of a table past the
length gate — in particular whenever a long-entry group and a short-entry
group would trigger simultaneously — the resulting entry value is `-1`: the
short `.loc` assignment is evaluated after the long one and overwrites it
unconditionally. -/
theorem C6_short_assignment_wins (df : List IndRow) (i : Nat)
    (h : startup_candle_count ≤ df.length)
    (hs : shortEntryMask (df.getD i emptyRow) = true) :
    (populate_entry_trend df).getD i 0 = -1 := by
  rw [populate_entry_trend_getD_of_ge df (by omega) i]
  unfold entryRule
  rw [hs]
  simp

theorem C6_short_assignment_wins_witness :
    (populate_entry_trend (List.replicate 200 rowShort)).getD 0 0 = -1 :=
  C6_short_assignment_wins (List.replicate 200 rowShort) 0
    (by rw [List.length_replicate]; decide) (by with_unfolding_all decide)

/-- C7: the long-entry disjunction and the short-entry disjunction can
never hold at the same bar — each long/short pair of groups contains a
contradictory comparison pair (`adx >= 25` vs `adx < 25`, `close > ema` vs
`close < ema`, `macd > signal` vs `macd < signal`, or disjoint RSI ranges),
and a comparison involving an undefined value is false — so the
short-overwrites-long assignment never changes a bar already set to `+1`. -/
theorem C7_long_short_disjoint (df : List IndRow) (i : Nat)
    (hl : longEntryMask (df.getD i emptyRow) = true) :
    shortEntryMask (df.getD i emptyRow) = false ∧
    (startup_candle_count ≤ df.length → (populate_entry_trend df).getD i 0 = 1) := by
  have hs : shortEntryMask (df.getD i emptyRow) = false := by
    rcases hh : shortEntryMask (df.getD i emptyRow)
    · rfl
    · exact absurd (longEntryMask_shortEntryMask_disjoint _ hl hh) not_false
  refine ⟨hs, fun h => ?_⟩
  rw [populate_entry_trend_getD_of_ge df (by omega) i]
  unfold entryRule
  rw [hs, hl]
  decide

theorem C7_long_short_disjoint_witness :
    shortEntryMask ((List.replicate 200 rowLong).getD 0 emptyRow) = false ∧
    (populate_entry_trend (List.replicate 200 rowLong)).getD 0 0 = 1 := by
  have h := C7_long_short_disjoint (List.replicate 200 rowLong) 0
    (by with_unfolding_all decide)
  exact ⟨h.1, h.2 (by rw [List.length_replicate]; decide)⟩

/-- C10: the pipeline is deterministic — running `populate_indicators`,
`populate_entry_trend` and `populate_exit_trend` on identical input series
yields identical indicator, entry and exit columns (each stage is a pure
function of its input). -/
theorem C10_pipeline_deterministic (bars₁ bars₂ : List Bar) (h : bars₁ = bars₂) :
    populate_indicators bars₁ = populate_indicators bars₂ ∧
    populate_entry_trend (populate_indicators bars₁) =
      populate_entry_trend (populate_indicators bars₂) ∧
    populate_exit_trend (populate_indicators bars₁) =
      populate_exit_trend (populate_indicators bars₂) := by
  subst h
  exact ⟨rfl, rfl, rfl⟩

theorem C10_pipeline_deterministic_witness :
    populate_indicators [defaultBar] = populate_indicators [defaultBar] ∧
    populate_entry_trend (populate_indicators [defaultBar]) =
      populate_entry_trend (populate_indicators [defaultBar]) ∧
    populate_exit_trend (populate_indicators [defaultBar]) =
      populate_exit_trend (populate_indicators [defaultBar]) :=
  C10_pipeline_deterministic [defaultBar] [defaultBar] rfl

theorem populate_indicators_length (bars : List Bar) :
    (populate_indicators bars).length = bars.length := by
  simp [populate_indicators]

/-- Concrete 15-bar price series with strictly falling closes: RSI is `0`
at bar 14, so `exit_short` holds there although the series is far below the
warm-up count. -/
def fallingBars : List Bar :=
  (List.range 15).map fun i =>
    let q : ℚ := (i : ℚ)
    ⟨100 - q, 101 - q, 99 - q, 100 - q, 10⟩

/-- Concrete 200-bar price series: closes flat at 100 (bars 0-19), rising
by 1 per bar (bars 20-49, reaching 130), then flat at 130; highs and lows
constant (so directional movement, hence ADX, is 0).  At bar 60 the RSI is
100, the ADX is 0 and the MACD is below its signal line, so
`consolidation_short` fires at a bar index far below the warm-up count. -/
def risingBars : List Bar :=
  (List.range 200).map fun i =>
    let c : ℚ := if i < 20 then 100 else if i < 50 then 100 + ((i : ℚ) - 19) else 130
    ⟨c, 200, 0, c, 1⟩

theorem C2_counterexample :
    fallingBars.length < startup_candle_count ∧
    (populate_exit_trend (populate_indicators fallingBars)).getD 14 0 = -1 ∧
    (-1 : Int) ≠ 0 := by
  refine ⟨by decide, ?_, by decide⟩
  with_unfolding_all decide

/-- C2 (amended): on a series shorter than the warm-up threshold the entry
signal is suppressed (`enter = 0` at every bar) and no operation raises —
every function of the pipeline is total — but the exit signal is NOT
suppressed: `populate_exit_trend` has no length gate, and the exit value at
every bar (of a series of any length) is the per-row condition value, which
is `0` only where the conditions evaluate to false (for example where the
indicators involved are still undefined). -/
theorem C2_amended_short_series (bars : List Bar)
    (h : bars.length < startup_candle_count) (i : Nat) :
    (populate_entry_trend (populate_indicators bars)).getD i 0 = 0 ∧
    (populate_exit_trend (populate_indicators bars)).getD i 0 =
      exitRule ((populate_indicators bars).getD i emptyRow) :=
  ⟨populate_entry_trend_getD_of_lt _ (by rw [populate_indicators_length]; exact h) i,
   populate_exit_trend_getD _ i⟩

theorem C2_amended_short_series_witness :
    (populate_entry_trend (populate_indicators fallingBars)).getD 14 0 = 0 ∧
    (populate_exit_trend (populate_indicators fallingBars)).getD 14 0 =
      exitRule ((populate_indicators fallingBars).getD 14 emptyRow) :=
  C2_amended_short_series fallingBars (by decide) 14

set_option maxRecDepth 100000 in
theorem C3_counterexample :
    startup_candle_count ≤ risingBars.length ∧
    60 < startup_candle_count ∧
    (populate_entry_trend (populate_indicators risingBars)).getD 60 0 = -1 ∧
    (-1 : Int) ≠ 0 := by
  refine ⟨by decide, by decide, ?_, by decide⟩
  with_unfolding_all decide

/-- C3 (amended): bars preceding warm-up completion are NOT individually
forced to `0`.  The only gate is on the total row count and only in
`populate_entry_trend`: when the table has at least `startup_candle_count`
rows, every bar — including each bar of index below
`startup_candle_count` — receives the condition-derived entry value, and
the exit value is always condition-derived; such a bar reads `0` only when
its conditions evaluate to false (for example on undefined indicators). -/
theorem C3_amended_no_per_bar_gate (df : List IndRow) (i : Nat)
    (h : startup_candle_count ≤ df.length) (hi : i < startup_candle_count) :
    (populate_entry_trend df).getD i 0 = entryRule (df.getD i emptyRow) ∧
    (populate_exit_trend df).getD i 0 = exitRule (df.getD i emptyRow) :=
  ⟨populate_entry_trend_getD_of_ge df (by omega) i, populate_exit_trend_getD df i⟩

theorem C3_amended_no_per_bar_gate_witness :
    (populate_entry_trend (List.replicate 200 rowLong)).getD 5 0 =
      entryRule ((List.replicate 200 rowLong).getD 5 emptyRow) ∧
    (populate_exit_trend (List.replicate 200 rowLong)).getD 5 0 =
      exitRule ((List.replicate 200 rowLong).getD 5 emptyRow) :=
  C3_amended_no_per_bar_gate (List.replicate 200 rowLong) 5
    (by rw [List.length_replicate]; decide) (by decide)

theorem populate_indicators_getD_of_lt (bars : List Bar) (i : Nat)
    (h : i < bars.length) :
    (populate_indicators bars).getD i emptyRow = mkIndRow bars i := by
  rw [List.getD_eq_getElem?_getD]
  unfold populate_indicators
  rw [List.getElem?_map, List.getElem?_range h]
  rfl

theorem populate_indicators_getD_of_ge (bars : List Bar) (i : Nat)
    (h : bars.length ≤ i) :
    (populate_indicators bars).getD i emptyRow = emptyRow := by
  rw [List.getD_eq_getElem?_getD,
    List.getElem?_eq_none (by rw [populate_indicators_length]; exact h)]
  rfl

theorem mapConstNone_getD {α : Type} (l : List α) (i : Nat) :
    ((l.map fun _ => (none : Option ℚ)).getD i none) = none := by
  rw [List.getD_eq_getElem?_getD, List.getElem?_map]
  cases l[i]? <;> rfl

theorem replicateNoneAppend_getD (k : Nat) (l : List (Option ℚ)) (i : Nat) :
    ((List.replicate k (none : Option ℚ) ++ l).getD i none) =
      if i < k then none else l.getD (i - k) none := by
  rw [List.getD_eq_getElem?_getD]
  by_cases hik : i < k
  · rw [List.getElem?_append_left (by simpa using hik),
      List.getElem?_replicate_of_lt hik]
    simp [hik]
  · rw [List.getElem?_append_right (by simpa using not_lt.mp hik),
      List.length_replicate]
    simp [hik, List.getD_eq_getElem?_getD]

theorem mapSome_getD (l : List ℚ) (j : Nat) :
    ((l.map some).getD j none) = l[j]? := by
  rw [List.getD_eq_getElem?_getD, List.getElem?_map]
  cases l[j]? <;> rfl

/-- Relation between the three columns returned by `ta.MACD`: wherever all
three are defined, the histogram is the difference of the macd line and the
signal line. -/
theorem macd_cols_relation (xs : List ℚ) (i : Nat) (m s h : ℚ)
    (hm : (macdCol macd_fast macd_slow macd_signal xs).getD i none = some m)
    (hs : (macdSignalCol macd_fast macd_slow macd_signal xs).getD i none = some s)
    (hh : (macdHistCol macd_fast macd_slow macd_signal xs).getD i none = some h) :
    h = m - s := by
  unfold macdCol at hm
  unfold macdSignalCol at hs
  unfold macdHistCol at hh
  by_cases hn : xs.length < macd_slow + macd_signal - 1
  · rw [if_pos hn, mapConstNone_getD] at hm
    exact absurd hm (by simp)
  · rw [if_neg hn, replicateNoneAppend_getD] at hm hs hh
    by_cases hik : i < macd_slow + macd_signal - 2
    · rw [if_pos hik] at hm
      exact absurd hm (by simp)
    · rw [if_neg hik, mapSome_getD] at hm hs hh
      rw [List.getElem?_zipWith] at hh
      rw [hm, hs] at hh
      simpa using hh.symm

/-- Concrete 34-bar constant price series on which all three MACD columns
are defined at bar 33 (with value 0); used by the C8 witness. -/
def flatBars : List Bar := List.replicate 34 ⟨100, 100, 100, 100, 10⟩

/-- C8: for every bar of the dataframe produced by `populate_indicators` at
which the three MACD columns are defined, the `macd_hist` column equals the
`macd` column minus the `macd_signal` column exactly. -/
theorem C8_macd_hist_identity (bars : List Bar) (i : Nat) (m s h : ℚ)
    (hm : ((populate_indicators bars).getD i emptyRow).macd = some m)
    (hs : ((populate_indicators bars).getD i emptyRow).macd_signal = some s)
    (hh : ((populate_indicators bars).getD i emptyRow).macd_hist = some h) :
    h = m - s := by
  by_cases hlen : i < bars.length
  · rw [populate_indicators_getD_of_lt bars i hlen] at hm hs hh
    unfold mkIndRow at hm hs hh
    exact macd_cols_relation (closes bars) i m s h hm hs hh
  · rw [populate_indicators_getD_of_ge bars i (not_lt.mp hlen)] at hm
    exact absurd hm (by simp [emptyRow])

set_option maxRecDepth 400000 in
theorem C8_macd_hist_identity_witness :
    ((populate_indicators flatBars).getD 33 emptyRow).macd_hist = some 0 ∧
    (0 : ℚ) = 0 - 0 :=
  ⟨by with_unfolding_all decide,
   C8_macd_hist_identity flatBars 33 0 0 0 (by with_unfolding_all decide)
     (by with_unfolding_all decide) (by with_unfolding_all decide)⟩

theorem getD_some_mem {l : List (Option ℚ)} {i : Nat} {x : ℚ}
    (h : l.getD i none = some x) : some x ∈ l := by
  rw [List.getD_eq_getElem?_getD] at h
  cases hq : l[i]? with
  | none => rw [hq] at h; exact absurd h (by simp)
  | some o => rw [hq] at h; exact h ▸ List.getElem?_mem hq

theorem gainOf_nonneg (d : ℚ) : 0 ≤ gainOf d := by
  unfold gainOf
  split_ifs with h
  · exact le_of_lt h
  · exact le_rfl

theorem lossOf_nonneg (d : ℚ) : 0 ≤ lossOf d := by
  unfold lossOf
  split_ifs with h
  · linarith
  · exact le_rfl

theorem rsiVal_bounds {g l : ℚ} (hg : 0 ≤ g) (hl : 0 ≤ l) :
    0 ≤ rsiVal g l ∧ rsiVal g l ≤ 100 := by
  unfold rsiVal
  split_ifs with h
  · exact ⟨le_rfl, by norm_num⟩
  · have hpos : 0 < g + l := lt_of_le_of_ne (by linarith) (Ne.symm h)
    refine ⟨by positivity, ?_⟩
    have h1 : g / (g + l) ≤ 1 := (div_le_one hpos).mpr (by linarith)
    linarith

theorem rsiScan_mem_bounds (p : ℚ) (hp : 1 ≤ p) :
    ∀ (ds : List ℚ) (g l : ℚ), 0 ≤ g → 0 ≤ l →
      ∀ x ∈ rsiScan p g l ds, 0 ≤ x ∧ x ≤ 100 := by
  intro ds
  induction ds with
  | nil => intro g l _ _ x hx; simp [rsiScan] at hx
  | cons d t ih =>
    intro g l hg hl x hx
    have hp0 : (0 : ℚ) < p := by linarith
    have hg' : 0 ≤ (g * (p - 1) + gainOf d) / p := by
      have h1 : 0 ≤ g * (p - 1) := mul_nonneg hg (by linarith)
      have h2 := gainOf_nonneg d
      positivity
    have hl' : 0 ≤ (l * (p - 1) + lossOf d) / p := by
      have h1 : 0 ≤ l * (p - 1) := mul_nonneg hl (by linarith)
      have h2 := lossOf_nonneg d
      positivity
    rcases List.mem_cons.mp (by simpa [rsiScan] using hx) with rfl | hx'
    · exact rsiVal_bounds hg' hl'
    · exact ih _ _ hg' hl' x hx'

theorem rsiCol_bounds (p : Nat) (xs : List ℚ) (i : Nat) (x : ℚ)
    (hp : 1 ≤ p) (h : (rsiCol p xs).getD i none = some x) :
    0 ≤ x ∧ x ≤ 100 := by
  have hpq : (1 : ℚ) ≤ (p : ℚ) := by exact_mod_cast hp
  have hpq0 : (0 : ℚ) ≤ (p : ℚ) := by linarith
  have hmem := getD_some_mem h
  unfold rsiCol at hmem
  split at hmem
  · exact absurd hmem (by simp)
  · rw [List.mem_append] at hmem
    rcases hmem with hmem | hmem
    · exact absurd (List.eq_of_mem_replicate hmem) (by simp)
    · rw [List.mem_map] at hmem
      obtain ⟨v, hv, hvx⟩ := hmem
      obtain rfl : v = x := by injection hvx
      have hg0 : 0 ≤ ((List.take p (diffs xs)).map gainOf).sum / (p : ℚ) := by
        apply div_nonneg _ hpq0
        exact List.sum_nonneg fun y hy => by
          obtain ⟨d, _, rfl⟩ := List.mem_map.mp hy
          exact gainOf_nonneg d
      have hl0 : 0 ≤ ((List.take p (diffs xs)).map lossOf).sum / (p : ℚ) := by
        apply div_nonneg _ hpq0
        exact List.sum_nonneg fun y hy => by
          obtain ⟨d, _, rfl⟩ := List.mem_map.mp hy
          exact lossOf_nonneg d
      rcases List.mem_cons.mp hv with rfl | hv'
      · exact rsiVal_bounds hg0 hl0
      · exact rsiScan_mem_bounds (p : ℚ) hpq _ _ _ hg0 hl0 _ hv'

/-- Non-negativity of the smoothed ADX accumulators: the `+DM`, `-DM` and
true-range components of the running state. -/
def StNonneg (s : DmState) : Prop := 0 ≤ s.pdm ∧ 0 ≤ s.mdm ∧ 0 ≤ s.tr

theorem trueRange_nonneg (h l pc : ℚ) : 0 ≤ trueRange h l pc :=
  le_trans (abs_nonneg (h - pc))
    (le_trans (le_max_left _ _) (le_max_right _ _))

theorem decay_nonneg {x p : ℚ} (hx : 0 ≤ x) (hp : 1 ≤ p) : 0 ≤ x - x / p := by
  have h1 : x / p ≤ x := div_le_self hx hp
  linarith

theorem dmAccumStep_nonneg {s : DmState} (hs : StNonneg s) (b : Bar) :
    StNonneg (dmAccumStep s b) := by
  obtain ⟨h1, h2, h3⟩ := hs
  have htr := trueRange_nonneg b.high b.low s.pc
  unfold dmAccumStep StNonneg
  refine ⟨?_, ?_, ?_⟩ <;> simp only <;> (try split_ifs) <;> linarith

theorem dmSmoothStep_nonneg {p : ℚ} (hp : 1 ≤ p) {s : DmState}
    (hs : StNonneg s) (b : Bar) : StNonneg (dmSmoothStep p s b) := by
  obtain ⟨h1, h2, h3⟩ := hs
  have htr := trueRange_nonneg b.high b.low s.pc
  have d1 := decay_nonneg h1 hp
  have d2 := decay_nonneg h2 hp
  have d3 := decay_nonneg h3 hp
  unfold dmSmoothStep StNonneg
  refine ⟨?_, ?_, ?_⟩ <;> simp only <;> (try split_ifs) <;> linarith

theorem dxOf_bounds {s : DmState} (hs : StNonneg s) :
    0 ≤ dxOf s ∧ dxOf s ≤ 100 := by
  obtain ⟨hp, hm, ht⟩ := hs
  unfold dxOf
  dsimp only
  split_ifs with h1 h2
  · exact ⟨le_rfl, by norm_num⟩
  · exact ⟨le_rfl, by norm_num⟩
  · have htpos : 0 < s.tr := lt_of_le_of_ne ht (Ne.symm h1)
    have hpdi : 0 ≤ 100 * (s.pdm / s.tr) := by positivity
    have hmdi : 0 ≤ 100 * (s.mdm / s.tr) := by positivity
    have hsum : 0 < 100 * (s.pdm / s.tr) + 100 * (s.mdm / s.tr) :=
      lt_of_le_of_ne (by linarith) (Ne.symm h2)
    refine ⟨by positivity, ?_⟩
    have habs : |100 * (s.mdm / s.tr) - 100 * (s.pdm / s.tr)| ≤
        100 * (s.pdm / s.tr) + 100 * (s.mdm / s.tr) := by
      rcases abs_cases (100 * (s.mdm / s.tr) - 100 * (s.pdm / s.tr)) with
        ⟨he, _⟩ | ⟨he, _⟩ <;> rw [he] <;> linarith
    have hone : |100 * (s.mdm / s.tr) - 100 * (s.pdm / s.tr)| /
        (100 * (s.pdm / s.tr) + 100 * (s.mdm / s.tr)) ≤ 1 :=
      (div_le_one hsum).mpr habs
    linarith

theorem dxAccum_inv (p : ℚ) (hp : 1 ≤ p) :
    ∀ (bs : List Bar) (s : DmState) (acc : ℚ), StNonneg s → 0 ≤ acc →
      StNonneg (dxAccum p s acc bs).1 ∧ 0 ≤ (dxAccum p s acc bs).2 ∧
        (dxAccum p s acc bs).2 ≤ acc + 100 * (bs.length : ℚ) := by
  intro bs
  induction bs with
  | nil =>
    intro s acc hs hacc
    refine ⟨hs, hacc, ?_⟩
    simp [dxAccum]
  | cons b t ih =>
    intro s acc hs hacc
    have hs' := dmSmoothStep_nonneg hp hs b
    have hdx := dxOf_bounds hs'
    have h1 := ih (dmSmoothStep p s b) (acc + dxOf (dmSmoothStep p s b)) hs'
      (by linarith [hdx.1])
    refine ⟨h1.1, h1.2.1, ?_⟩
    have h2 := h1.2.2
    have : (dxAccum p s acc (b :: t)).2 =
        (dxAccum p (dmSmoothStep p s b) (acc + dxOf (dmSmoothStep p s b)) t).2 := by
      simp [dxAccum]
    rw [this]
    have hlen : ((b :: t).length : ℚ) = (t.length : ℚ) + 1 := by push_cast [List.length_cons]; ring
    rw [hlen]
    linarith [hdx.2]

theorem adxUpd_bounds (p : ℚ) (hp : 1 ≤ p) {adx : ℚ} (h0 : 0 ≤ adx)
    (h100 : adx ≤ 100) {s : DmState} (hs : StNonneg s) :
    0 ≤ adxUpd p adx s ∧ adxUpd p adx s ≤ 100 := by
  unfold adxUpd
  split_ifs with h1 h2
  · exact ⟨h0, h100⟩
  · exact ⟨h0, h100⟩
  · have hdx := dxOf_bounds hs
    have hp0 : (0 : ℚ) < p := by linarith
    have hnum : 0 ≤ adx * (p - 1) := mul_nonneg h0 (by linarith)
    constructor
    · apply div_nonneg _ (le_of_lt hp0)
      linarith [hdx.1]
    · rw [div_le_iff₀ hp0]
      have : adx * (p - 1) ≤ 100 * (p - 1) :=
        mul_le_mul_of_nonneg_right h100 (by linarith)
      linarith [hdx.2]

theorem adxScan_mem_bounds (p : ℚ) (hp : 1 ≤ p) :
    ∀ (bs : List Bar) (adx : ℚ) (s : DmState), 0 ≤ adx → adx ≤ 100 →
      StNonneg s → ∀ x ∈ adxScan p adx s bs, 0 ≤ x ∧ x ≤ 100 := by
  intro bs
  induction bs with
  | nil => intro adx s _ _ _ x hx; simp [adxScan] at hx
  | cons b t ih =>
    intro adx s h0 h100 hs x hx
    have hs' := dmSmoothStep_nonneg hp hs b
    have hb := adxUpd_bounds p hp h0 h100 hs'
    rcases List.mem_cons.mp (by simpa [adxScan] using hx) with rfl | hx'
    · exact hb
    · exact ih _ _ hb.1 hb.2 hs' x hx'

theorem foldl_dmAccumStep_nonneg :
    ∀ (bs : List Bar) (s : DmState), StNonneg s →
      StNonneg (bs.foldl dmAccumStep s) := by
  intro bs
  induction bs with
  | nil => intro s hs; simpa using hs
  | cons b t ih => intro s hs; exact ih _ (dmAccumStep_nonneg hs b)

theorem adxCol_bounds (p : Nat) (bars : List Bar) (i : Nat) (x : ℚ)
    (hp : 1 ≤ p) (h : (adxCol p bars).getD i none = some x) :
    0 ≤ x ∧ x ≤ 100 := by
  have hpq : (1 : ℚ) ≤ (p : ℚ) := by exact_mod_cast hp
  have hpq0 : (0 : ℚ) < (p : ℚ) := by linarith
  have hmem := getD_some_mem h
  unfold adxCol at hmem
  split at hmem
  · exact absurd hmem (by simp)
  · cases bars with
    | nil => simp at hmem
    | cons b0 rest =>
      rw [List.mem_append] at hmem
      rcases hmem with hmem | hmem
      · exact absurd (List.eq_of_mem_replicate hmem) (by simp)
      · have hs0 : StNonneg ⟨b0.high, b0.low, b0.close, 0, 0, 0⟩ :=
          ⟨le_rfl, le_rfl, le_rfl⟩
        have hsA := foldl_dmAccumStep_nonneg (rest.take (p - 1)) _ hs0
        have hinv := dxAccum_inv (p : ℚ) hpq ((rest.drop (p - 1)).take p) _ 0 hsA le_rfl
        have hlen : (((rest.drop (p - 1)).take p).length : ℚ) ≤ (p : ℚ) := by
          exact_mod_cast List.length_take_le p (rest.drop (p - 1))
        have hadx0 : 0 ≤ (dxAccum (p : ℚ)
              ((rest.take (p - 1)).foldl dmAccumStep ⟨b0.high, b0.low, b0.close, 0, 0, 0⟩)
              0 ((rest.drop (p - 1)).take p)).2 / (p : ℚ) ∧
            (dxAccum (p : ℚ)
              ((rest.take (p - 1)).foldl dmAccumStep ⟨b0.high, b0.low, b0.close, 0, 0, 0⟩)
              0 ((rest.drop (p - 1)).take p)).2 / (p : ℚ) ≤ 100 := by
          constructor
          · exact div_nonneg hinv.2.1 (le_of_lt hpq0)
          · rw [div_le_iff₀ hpq0]
            calc (dxAccum (p : ℚ) _ 0 ((rest.drop (p - 1)).take p)).2 ≤
                0 + 100 * (((rest.drop (p - 1)).take p).length : ℚ) := hinv.2.2
              _ ≤ 100 * (p : ℚ) := by linarith
        rw [List.mem_map] at hmem
        obtain ⟨v, hv, hvx⟩ := hmem
        obtain rfl : v = x := by injection hvx
        rcases List.mem_cons.mp hv with rfl | hv'
        · exact hadx0
        · exact adxScan_mem_bounds (p : ℚ) hpq _ _ _ hadx0.1 hadx0.2 hinv.1 _ hv'

theorem mkIndRow_rsi (bars : List Bar) (i : Nat) :
    (mkIndRow bars i).rsi = (rsiCol rsi_period (closes bars)).getD i none := rfl

theorem mkIndRow_adx (bars : List Bar) (i : Nat) :
    (mkIndRow bars i).adx = (adxCol adx_period bars).getD i none := rfl

/-- Concrete 28-bar constant price series on which the RSI column is
defined from bar 14 and the ADX column from bar 27 (both with value 0);
used by the C9 witness. -/
def steadyBars : List Bar := List.replicate 28 ⟨50, 50, 50, 50, 5⟩

/-- C9: every defined value of the `rsi` column of the dataframe produced
by `populate_indicators` lies in the closed interval `[0, 100]`, and so
does every defined value of the `adx` column (bars before warm-up hold no
value at all). -/
theorem C9_rsi_adx_bounded (bars : List Bar) (i : Nat) (x : ℚ) :
    (((populate_indicators bars).getD i emptyRow).rsi = some x →
      0 ≤ x ∧ x ≤ 100) ∧
    (((populate_indicators bars).getD i emptyRow).adx = some x →
      0 ≤ x ∧ x ≤ 100) := by
  by_cases hlen : i < bars.length
  · rw [populate_indicators_getD_of_lt bars i hlen, mkIndRow_rsi, mkIndRow_adx]
    constructor
    · intro h
      exact rsiCol_bounds rsi_period (closes bars) i x (by decide) h
    · intro h
      exact adxCol_bounds adx_period bars i x (by decide) h
  · rw [populate_indicators_getD_of_ge bars i (not_lt.mp hlen)]
    exact ⟨fun h => absurd h (by simp [emptyRow]),
           fun h => absurd h (by simp [emptyRow])⟩

set_option maxRecDepth 400000 in
theorem C9_rsi_adx_bounded_witness :
    ((0 : ℚ) ≤ 0 ∧ (0 : ℚ) ≤ 100) ∧ ((0 : ℚ) ≤ 0 ∧ (0 : ℚ) ≤ 100) :=
  ⟨(C9_rsi_adx_bounded steadyBars 14 0).1 (by with_unfolding_all decide),
   (C9_rsi_adx_bounded steadyBars 27 0).2 (by with_unfolding_all decide)⟩

end Breakout
